import Mathlib

set_option maxRecDepth 100000

/-!
Shallow embedding of the btrfs send-stream tools of this repository:
`scripts/btrfs_send_parse.py` (stream reader) and
`scripts/btrfs-send-sanitize.py` (sanitizing transform), together with the
CRC32C checksum engine and the MD5-based path hasher they use.

Byte strings are modelled as `List Nat` with every element below 256.
Machine arithmetic is modelled on `Nat` with explicit reductions modulo
powers of two.  Fallible operations (`struct.unpack` on short reads,
`struct.pack` range checks) return `Except String`.
-/

namespace BtrfsSend

/-! ### Little-endian integer codec (struct '<I', '<H', '<Q' fields) -/

/-- Encode `x` in `w` little-endian bytes (Python `struct.pack`, value taken
modulo `2^(8*w)`; the real `struct.pack` raises on out-of-range values, which
is modelled by explicit range checks at the call sites that can fail). -/
def toLE : Nat → Nat → List Nat
  | 0, _ => []
  | w + 1, x => x % 256 :: toLE w (x / 256)

/-- Decode a little-endian byte list to a natural number
(Python `struct.unpack` / `int.from_bytes(..., "little")`). -/
def fromLE : List Nat → Nat
  | [] => 0
  | b :: bs => b + 256 * fromLE bs

/-! ### CRC32C checksum engine, from `btrfs-send-sanitize.py` lines 31-45 -/

/-- One bit-step of the reflected CRC with polynomial `0x82F63B78`:
`fwd = (fwd >> 1) ^ 0x82f63b78` if the low bit is set, else `fwd >> 1`. -/
def crcStep (fwd : Nat) : Nat :=
  if fwd % 2 = 1 then (fwd / 2) ^^^ 0x82f63b78 else fwd / 2

/-- Eight bit-steps, i.e. one table entry computation. -/
def crcStep8 (fwd : Nat) : Nat :=
  crcStep (crcStep (crcStep (crcStep (crcStep (crcStep (crcStep (crcStep fwd)))))))

/-- `_crc32c_table[i]`: eight rounds of `crcStep` starting from `i`,
masked to 32 bits (the mask is the code's `fwd & 0xffffffff`). -/
def crc32c_table (i : Nat) : Nat :=
  crcStep8 i &&& 0xffffffff

/-- The one-shot checksum of `btrfs-send-sanitize.py`:
`crc = 0; for c in b: crc = (crc >> 8) ^ _crc32c_table[(crc ^ c) & 0xff]; return crc`.
The accumulator is seeded with `0` and the final value is returned without
any finalizing XOR. -/
def crc32c (b : List Nat) : Nat :=
  b.foldl (fun crc c => (crc >>> 8) ^^^ crc32c_table ((crc ^^^ c) &&& 0xff)) 0

/-- The checksum convention the specification describes for the one-shot entry
point: the same table-driven fold, but seeded with `0xFFFFFFFF` and with the
final accumulator XORed with `0xFFFFFFFF`.  Written from the spec's words, to
be compared against `crc32c` above. -/
def crc32c_specConvention (b : List Nat) : Nat :=
  (b.foldl (fun crc c => (crc >>> 8) ^^^ crc32c_table ((crc ^^^ c) &&& 0xff)) 0xffffffff)
    ^^^ 0xffffffff

/-- The mathematical reflected CRC with polynomial `0x82F63B78`, processed one
bit at a time: for each input byte, XOR it into the accumulator and run eight
`crcStep` rounds.  Seeded with `0`, no finalizing XOR. -/
def crc32c_bitwise (b : List Nat) : Nat :=
  b.foldl (fun crc c => crcStep8 (crc ^^^ c)) 0

/-! ### MD5 (Python `hashlib.md5`), used by the path sanitizer

The transform anonymizes path components with `hashlib.md5`.  A hasher object
is modelled by the byte string it has absorbed so far (`md5(salt)` absorbs the
salt, `update` appends, `copy` duplicates); `hexdigest` runs MD5 over the
absorbed bytes. -/

/-- `2^32`. -/
def M32 : Nat := 4294967296

/-- 32-bit left rotation; arguments below `2^32` and `1 ≤ s ≤ 31`. -/
def rotl32 (x s : Nat) : Nat :=
  ((x <<< s) % M32) ||| (x >>> (32 - s))

/-- The 64 MD5 round constants `K[i] = floor(2^32 * |sin(i+1)|)`. -/
def md5K : List Nat :=
  [0xd76aa478, 0xe8c7b756, 0x242070db, 0xc1bdceee,
   0xf57c0faf, 0x4787c62a, 0xa8304613, 0xfd469501,
   0x698098d8, 0x8b44f7af, 0xffff5bb1, 0x895cd7be,
   0x6b901122, 0xfd987193, 0xa679438e, 0x49b40821,
   0xf61e2562, 0xc040b340, 0x265e5a51, 0xe9b6c7aa,
   0xd62f105d, 0x02441453, 0xd8a1e681, 0xe7d3fbc8,
   0x21e1cde6, 0xc33707d6, 0xf4d50d87, 0x455a14ed,
   0xa9e3e905, 0xfcefa3f8, 0x676f02d9, 0x8d2a4c8a,
   0xfffa3942, 0x8771f681, 0x6d9d6122, 0xfde5380c,
   0xa4beea44, 0x4bdecfa9, 0xf6bb4b60, 0xbebfbc70,
   0x289b7ec6, 0xeaa127fa, 0xd4ef3085, 0x04881d05,
   0xd9d4d039, 0xe6db99e5, 0x1fa27cf8, 0xc4ac5665,
   0xf4292244, 0x432aff97, 0xab9423a7, 0xfc93a039,
   0x655b59c3, 0x8f0ccc92, 0xffeff47d, 0x85845dd1,
   0x6fa87e4f, 0xfe2ce6e0, 0xa3014314, 0x4e0811a1,
   0xf7537e82, 0xbd3af235, 0x2ad7d2bb, 0xeb86d391]

/-- The 64 MD5 per-round left-rotation amounts. -/
def md5S : List Nat :=
  [7, 12, 17, 22, 7, 12, 17, 22, 7, 12, 17, 22, 7, 12, 17, 22,
   5, 9, 14, 20, 5, 9, 14, 20, 5, 9, 14, 20, 5, 9, 14, 20,
   4, 11, 16, 23, 4, 11, 16, 23, 4, 11, 16, 23, 4, 11, 16, 23,
   6, 10, 15, 21, 6, 10, 15, 21, 6, 10, 15, 21, 6, 10, 15, 21]

/-- MD5 round mixing function (32-bit complement written as XOR with
`0xffffffff`). -/
def md5F (i b c d : Nat) : Nat :=
  if i < 16 then (b &&& c) ||| ((b ^^^ 0xffffffff) &&& d)
  else if i < 32 then (d &&& b) ||| ((d ^^^ 0xffffffff) &&& c)
  else if i < 48 then b ^^^ c ^^^ d
  else c ^^^ (b ||| (d ^^^ 0xffffffff))

/-- MD5 message-word index for round `i`. -/
def md5G (i : Nat) : Nat :=
  if i < 16 then i
  else if i < 32 then (5 * i + 1) % 16
  else if i < 48 then (3 * i + 5) % 16
  else (7 * i) % 16

/-- The four 32-bit MD5 state words. -/
structure MD5State where
  a : Nat
  b : Nat
  c : Nat
  d : Nat
deriving DecidableEq

/-- One MD5 round over message words `M`. -/
def md5Round (M : List Nat) (st : MD5State) (i : Nat) : MD5State :=
  let f := (md5F i st.b st.c st.d + st.a + md5K.getD i 0 + M.getD (md5G i) 0) % M32
  ⟨st.d, (st.b + rotl32 f (md5S.getD i 0)) % M32, st.b, st.c⟩

/-- Process one 64-byte block. -/
def md5Block (st : MD5State) (block : List Nat) : MD5State :=
  let M := (List.range 16).map fun j => fromLE ((block.drop (4 * j)).take 4)
  let r := (List.range 64).foldl (md5Round M) st
  ⟨(st.a + r.a) % M32, (st.b + r.b) % M32, (st.c + r.c) % M32, (st.d + r.d) % M32⟩

/-- MD5 padding: `0x80`, zeros to 56 mod 64, then the bit length as 8
little-endian bytes. -/
def md5Pad (msg : List Nat) : List Nat :=
  msg ++ 0x80 :: List.replicate ((55 - msg.length % 64 + 64) % 64) 0
      ++ toLE 8 (8 * msg.length)

/-- Fold `md5Block` over successive 64-byte blocks (`fuel` bounds the number
of blocks; callers pass at least the list length). -/
def md5Blocks : Nat → MD5State → List Nat → MD5State
  | 0, st, _ => st
  | _ + 1, st, [] => st
  | fuel + 1, st, l => md5Blocks fuel (md5Block st (l.take 64)) (l.drop 64)

/-- The 16-byte MD5 digest of a byte string. -/
def md5 (msg : List Nat) : List Nat :=
  let p := md5Pad msg
  let st := md5Blocks p.length ⟨0x67452301, 0xefcdab89, 0x98badcfe, 0x10325476⟩ p
  toLE 4 st.a ++ toLE 4 st.b ++ toLE 4 st.c ++ toLE 4 st.d

/-- Lower-case hex character code of a nibble. -/
def hexChar (n : Nat) : Nat := if n < 10 then 48 + n else 87 + n

/-- `hexdigest().encode('ascii')` of a digest: two hex character codes per
byte. -/
def hexBytes : List Nat → List Nat
  | [] => []
  | c :: cs => hexChar (c / 16) :: hexChar (c % 16) :: hexBytes cs

/-- The ASCII bytes of `hasher.hexdigest()` for a hasher that has absorbed
`absorbed`. -/
def md5Hex (absorbed : List Nat) : List Nat :=
  hexBytes (md5 absorbed)

/-! ### Stream reader, from `btrfs_send_parse.py` -/

/-- `b"btrfs-stream\0"`. -/
def MAGIC : List Nat := [98, 116, 114, 102, 115, 45, 115, 116, 114, 101, 97, 109, 0]

/-- A decoded attribute value: raw bytes, or one of the semantic decodings the
reader applies for known attribute types (integer, device number, timestamp). -/
inductive AttrValue where
  | raw (b : List Nat)
  | num (n : Nat)
  | dev (major minor : Nat)
  | time (sec nsec : Nat)
deriving DecidableEq

/-- A decoded attribute: numeric type code (unknown codes are kept as-is) and
decoded value. -/
structure Attr where
  type : Nat
  value : AttrValue
deriving DecidableEq

/-- A decoded command: numeric type code, attributes in wire order, and the
stored checksum as read from the wire. -/
structure Cmd where
  type : Nat
  attrs : List Attr
  crc : Nat
deriving DecidableEq

/-- Attribute types decoded as little-endian integers:
CTRANSID, INO, SIZE, MODE, UID, GID, FILE_OFFSET, CLONE_CTRANSID,
CLONE_OFFSET, CLONE_LEN. -/
def intAttrTypes : List Nat := [2, 3, 4, 5, 6, 7, 18, 21, 23, 24]

/-- Attribute types decoded as timestamps: CTIME, MTIME, ATIME, OTIME. -/
def timeAttrTypes : List Nat := [9, 10, 11, 12]

/-- The reader's per-attribute value decoding (`btrfs_send_parse.py` lines
122-146).  The timestamp decoding is `struct.unpack("<QI", value)`, which
fails unless the value is exactly 12 bytes; everything else succeeds on any
byte string, and unrecognized types keep the raw bytes. -/
def convertAttrValue (t : Nat) (v : List Nat) : Except String AttrValue :=
  if t ∈ intAttrTypes then .ok (.num (fromLE v))
  else if t = 8 then
    let dev := fromLE v
    .ok (.dev ((dev &&& 0xFFF00) >>> 8) ((dev &&& 0xFF) ||| ((dev >>> 12) &&& 0xFFF00)))
  else if t ∈ timeAttrTypes then
    if v.length = 12 then .ok (.time (fromLE (v.take 8)) (fromLE (v.drop 8)))
    else .error "struct.error"
  else .ok (.raw v)

/-- The reader's attribute loop (`while n < cmd_len` in `parse_send_stream`):
read a 4-byte attribute header, read that many value bytes (short reads at end
of input return fewer bytes, as `file.read` does), decode, and repeat while
the consumed count `n` is below the declared payload length.  Returns the
decoded attributes, the final consumed count, and the remaining input.  `fuel`
bounds the number of iterations; every call site passes more than the loop can
use, since each iteration adds at least 4 to `n`. -/
def parseAttrs : Nat → Nat → Nat → List Nat → Except String (List Attr × Nat × List Nat)
  | 0, _, _, _ => .error "internal: out of fuel"
  | fuel + 1, n, cmdLen, input =>
    if n < cmdLen then
      if input.length < 4 then .error "struct.error"
      else
        let t := fromLE (input.take 2)
        let len := fromLE ((input.drop 2).take 2)
        let rest := input.drop 4
        let v := rest.take len
        match convertAttrValue t v with
        | .error e => .error e
        | .ok av =>
          match parseAttrs fuel (n + 4 + len) cmdLen (rest.drop len) with
          | .error e => .error e
          | .ok (attrs, n', rem) => .ok (⟨t, av⟩ :: attrs, n', rem)
    else .ok ([], n, input)

/-- The reader's command loop: read a 10-byte command header
(`struct.unpack('<IHI', file.read(10))`), decode the attributes, yield the
command, and stop after a command of the terminal type END (21).  `fuel`
bounds the number of commands; each iteration consumes at least 10 bytes. -/
def parseCmds : Nat → List Nat → Except String (List Cmd)
  | 0, _ => .error "internal: out of fuel"
  | fuel + 1, input =>
    if input.length < 10 then .error "struct.error"
    else
      let cmdLen := fromLE (input.take 4)
      let cmdType := fromLE ((input.drop 4).take 2)
      let crc := fromLE ((input.drop 6).take 4)
      match parseAttrs (cmdLen + 1) 0 cmdLen (input.drop 10) with
      | .error e => .error e
      | .ok (attrs, _, rem) =>
        if cmdType = 21 then .ok [⟨cmdType, attrs, crc⟩]
        else
          match parseCmds fuel rem with
          | .error e => .error e
          | .ok cmds => .ok (⟨cmdType, attrs, crc⟩ :: cmds)

/-- `parse_send_stream`: check the magic and version, then read commands until
the terminal command.  Returns the sequence of decoded commands (the iterator,
run to completion). -/
def parse_send_stream (input : List Nat) : Except String (List Cmd) :=
  if input.take 13 ≠ MAGIC then .error "send stream magic does not match"
  else if (input.drop 13).length < 4 then .error "struct.error"
  else if fromLE ((input.drop 13).take 4) ≠ 1 then .error "unexpected version"
  else parseCmds (input.length + 1) (input.drop 17)

/-! ### Sanitizing transform, from `btrfs-send-sanitize.py` -/

/-- Attribute types whose values are hashed as paths:
PATH, PATH_TO, PATH_LINK, CLONE_PATH. -/
def pathAttrTypes : List Nat := [15, 16, 17, 22]

/-- Attribute types whose values are redacted to all zeroes:
DATA, CTIME, MTIME, ATIME, OTIME, UID, GID. -/
def zeroAttrTypes : List Nat := [19, 9, 10, 11, 12, 6, 7]

/-- The loop body of `filter_path`: walk the `/`-separated components; keep
empty, `.` and `..` components; replace every other component by the hex
digest of the hasher.  The code rebinds its local `hasher` to the updated
copy (`hasher = hasher.copy(); hasher.update(component)`), so the hasher
state accumulates every previously kept component of the same path. -/
def filterPathGo (hasher : List Nat) : List (List Nat) → List (List Nat)
  | [] => []
  | c :: cs =>
    if c = [] ∨ c = [46] ∨ c = [46, 46] then c :: filterPathGo hasher cs
    else md5Hex (hasher ++ c) :: filterPathGo (hasher ++ c) cs

/-- `filter_path`: split on `/` (47), transform the components, join with
`/`. -/
def filter_path (path : List Nat) (hasher : List Nat) : List Nat :=
  List.intercalate [47] (filterPathGo hasher (path.splitOn 47))

/-- The value substitution of `filter_cmd`'s attribute loop: path types are
hashed, redacted types are replaced by `bytes(orig_tlv_len)` (note: the
declared length, even if the read returned fewer bytes), everything else is
passed through unchanged. -/
def sanitizeValue (hasher : List Nat) (t : Nat) (v : List Nat) (declLen : Nat) : List Nat :=
  if t ∈ pathAttrTypes then filter_path v hasher
  else if t ∈ zeroAttrTypes then List.replicate declLen 0
  else v

/-- The attribute loop of `filter_cmd`: read each TLV while the consumed
count is below the declared payload length, substitute the value, and append
`pack('<HH', type, len(new_value)) + new_value` to the new payload.  The
pack raises `struct.error` when the new value length exceeds 16 bits.
Returns the new payload bytes, the final consumed count, and the remaining
input. -/
def filterAttrs (hasher : List Nat) : Nat → Nat → Nat → List Nat → Except String (List Nat × Nat × List Nat)
  | 0, _, _, _ => .error "internal: out of fuel"
  | fuel + 1, n, cmdLen, input =>
    if n < cmdLen then
      if input.length < 4 then .error "struct.error"
      else
        let t := fromLE (input.take 2)
        let len := fromLE ((input.drop 2).take 2)
        let rest := input.drop 4
        let newV := sanitizeValue hasher t (rest.take len) len
        if newV.length < 65536 then
          match filterAttrs hasher fuel (n + 4 + len) cmdLen (rest.drop len) with
          | .error e => .error e
          | .ok (out, n', rem) => .ok (toLE 2 t ++ toLE 2 newV.length ++ newV ++ out, n', rem)
        else .error "struct.error"
    else .ok ([], n, input)

/-- `filter_cmd`: read the 10-byte command header (the stored checksum is
read and discarded); elide SET_XATTR (13) and REMOVE_XATTR (14) commands
entirely after consuming their declared payload; otherwise rebuild the
payload through the attribute loop, recompute the checksum over the new
header with a zeroed checksum field followed by the new payload, and emit
the new header plus new payload.  Returns the emitted bytes, the remaining
input, and whether the command was the terminal END (21). -/
def filter_cmd (hasher : List Nat) (input : List Nat) : Except String (List Nat × List Nat × Bool) :=
  if input.length < 10 then .error "struct.error"
  else
    let origLen := fromLE (input.take 4)
    let cmd := fromLE ((input.drop 4).take 2)
    let rest := input.drop 10
    if cmd = 13 ∨ cmd = 14 then .ok ([], rest.drop origLen, false)
    else
      match filterAttrs hasher (origLen + 1) 0 origLen rest with
      | .error e => .error e
      | .ok (newData, _, rem) =>
        if newData.length < M32 then
          let newCrc := crc32c (toLE 4 newData.length ++ toLE 2 cmd ++ toLE 4 0 ++ newData)
          .ok (toLE 4 newData.length ++ toLE 2 cmd ++ toLE 4 newCrc ++ newData, rem, decide (cmd = 21))
        else .error "struct.error"

/-- The command loop of `filter_send_stream`: run `filter_cmd` until it
reports the terminal command, concatenating the emitted bytes.  `fuel` bounds
the number of commands; each iteration consumes at least 10 bytes. -/
def filterLoop (hasher : List Nat) : Nat → List Nat → Except String (List Nat)
  | 0, _ => .error "internal: out of fuel"
  | fuel + 1, input =>
    match filter_cmd hasher input with
    | .error e => .error e
    | .ok (out, rem, done) =>
      if done then .ok out
      else
        match filterLoop hasher fuel rem with
        | .error e => .error e
        | .ok out' => .ok (out ++ out')

/-- `filter_send_stream`: check and forward the magic and version
(`filter_header`), seed the hasher with the salt (`hashlib.md5(salt)`), and
run the command loop.  Returns the complete output byte string. -/
def filter_send_stream (input : List Nat) (salt : List Nat) : Except String (List Nat) :=
  if input.take 13 ≠ MAGIC then .error "send stream magic does not match"
  else if (input.drop 13).length < 4 then .error "struct.error"
  else if fromLE ((input.drop 13).take 4) ≠ 1 then .error "unexpected version"
  else
    match filterLoop salt (input.length + 1) (input.drop 17) with
    | .error e => .error e
    | .ok out => .ok (MAGIC ++ (input.drop 13).take 4 ++ out)

/-! ### Wire encoding of commands and attributes

`encodeStream` builds the exact byte strings the two programs consume: the
TLV attribute encoding, the 10-byte command header, and the stream header.
Theorems about well-formed streams quantify over these structures. -/

/-- An attribute as it appears on the wire: type code and value bytes. -/
structure RawAttr where
  type : Nat
  value : List Nat
deriving DecidableEq

/-- A command as it appears on the wire: type code, stored checksum field,
and attributes in order. -/
structure RawCmd where
  type : Nat
  crc : Nat
  attrs : List RawAttr
deriving DecidableEq

/-- TLV encoding of one attribute: 2-byte type, 2-byte length, value. -/
def encodeAttr (a : RawAttr) : List Nat :=
  toLE 2 a.type ++ toLE 2 a.value.length ++ a.value

/-- A command payload: the concatenated attribute TLVs. -/
def payloadBytes (attrs : List RawAttr) : List Nat :=
  (attrs.map encodeAttr).flatten

/-- The checksum of a command with type `t` and payload `p`: the CRC of the
10-byte header with a zeroed checksum field, followed by the payload. -/
def cmdCrc (t : Nat) (p : List Nat) : Nat :=
  crc32c (toLE 4 p.length ++ toLE 2 t ++ toLE 4 0 ++ p)

/-- Wire encoding of one command: header (payload length, type, stored
checksum) followed by the payload. -/
def encodeCmd (c : RawCmd) : List Nat :=
  toLE 4 (payloadBytes c.attrs).length ++ toLE 2 c.type ++ toLE 4 c.crc ++ payloadBytes c.attrs

/-- Wire encoding of a whole stream: magic, version 1, commands. -/
def encodeStream (cmds : List RawCmd) : List Nat :=
  MAGIC ++ toLE 4 1 ++ (cmds.map encodeCmd).flatten

/-! ### Specification-level descriptions of the two programs' outputs -/

/-- The attribute substitution the transform applies, at the level of
`RawAttr`: hash path-type values, zero redacted-type values, keep the rest. -/
def sanAttr (hasher : List Nat) (a : RawAttr) : RawAttr :=
  if a.type ∈ pathAttrTypes then ⟨a.type, filter_path a.value hasher⟩
  else if a.type ∈ zeroAttrTypes then ⟨a.type, List.replicate a.value.length 0⟩
  else a

/-- The bytes the transform emits for a non-elided command: new header (new
payload length, original type, freshly computed checksum) plus new payload. -/
def sanCmdBytes (hasher : List Nat) (c : RawCmd) : List Nat :=
  toLE 4 (payloadBytes (c.attrs.map (sanAttr hasher))).length ++ toLE 2 c.type
    ++ toLE 4 (cmdCrc c.type (payloadBytes (c.attrs.map (sanAttr hasher))))
    ++ payloadBytes (c.attrs.map (sanAttr hasher))

/-- The bytes the transform emits for any command: nothing for the elided
SET_XATTR (13) / REMOVE_XATTR (14) commands, `sanCmdBytes` otherwise. -/
def filteredCmdBytes (hasher : List Nat) (c : RawCmd) : List Nat :=
  if c.type = 13 ∨ c.type = 14 then [] else sanCmdBytes hasher c

/-- Checks an emitted command against its own bytes: the stored checksum
field equals the CRC recomputed over the header with a zeroed checksum field
plus the payload. -/
def checkCmdBytes (out : List Nat) : Bool :=
  decide (fromLE ((out.drop 6).take 4)
    = crc32c (out.take 6 ++ [0, 0, 0, 0] ++ out.drop 10))

/-- Total version of the reader's value decoding (defined on any value
bytes; agrees with `convertAttrValue` whenever the latter succeeds). -/
def convTotal (t : Nat) (v : List Nat) : AttrValue :=
  if t ∈ intAttrTypes then .num (fromLE v)
  else if t = 8 then
    .dev ((fromLE v &&& 0xFFF00) >>> 8) ((fromLE v &&& 0xFF) ||| ((fromLE v >>> 12) &&& 0xFFF00))
  else if t ∈ timeAttrTypes then .time (fromLE (v.take 8)) (fromLE (v.drop 8))
  else .raw v

/-- The decoded form of a wire attribute. -/
def parsedAttrOf (a : RawAttr) : Attr :=
  ⟨a.type, convTotal a.type a.value⟩

/-- The decoded form of a wire command. -/
def parsedCmdOf (c : RawCmd) : Cmd :=
  ⟨c.type, c.attrs.map parsedAttrOf, c.crc⟩

/-- Zero out the stored checksum field of a wire command (two wire commands
are byte-identical except in their checksum fields exactly when their
`eraseRawCrc` images agree). -/
def eraseRawCrc (c : RawCmd) : RawCmd :=
  ⟨c.type, 0, c.attrs⟩

/-- Zero out the reported checksum of a decoded command. -/
def eraseCrc (c : Cmd) : Cmd :=
  ⟨c.type, c.attrs, 0⟩

/-! ### Well-formedness of wire structures -/

/-- A wire attribute that the TLV encoding can represent: type and length
fit in 16 bits, value bytes are bytes. -/
abbrev wfAttr (a : RawAttr) : Prop :=
  a.type < 65536 ∧ a.value.length < 65536 ∧ ∀ b ∈ a.value, b < 256

/-- A wire command the header encoding can represent. -/
abbrev wfCmd (c : RawCmd) : Prop :=
  c.type < 65536 ∧ c.crc < M32 ∧ (payloadBytes c.attrs).length < M32 ∧ ∀ a ∈ c.attrs, wfAttr a

/-- Timestamp-typed attributes carry exactly 12 value bytes (otherwise the
reader's `struct.unpack("<QI", ...)` fails). -/
abbrev tsOK (c : RawCmd) : Prop :=
  ∀ a ∈ c.attrs, a.type ∈ timeAttrTypes → a.value.length = 12

/-- The sanitized attributes of `c` still fit the TLV and header encodings
(otherwise the transform's `struct.pack` fails). -/
abbrev sanOK (hasher : List Nat) (c : RawCmd) : Prop :=
  (∀ a ∈ c.attrs, (sanAttr hasher a).value.length < 65536)
    ∧ (payloadBytes (c.attrs.map (sanAttr hasher))).length < M32

/-- The command sequence of a well-formed stream: nonempty, the last command
is the terminal END (21), and no earlier command is. -/
abbrev StreamOK (cmds : List RawCmd) : Prop :=
  cmds ≠ [] ∧ (∀ c ∈ cmds.dropLast, c.type ≠ 21)
    ∧ Option.map RawCmd.type cmds.getLast? = some 21

/-- Decidable equality for `Except` results, used to evaluate the programs on
concrete inputs. -/
instance {e a : Type} [DecidableEq e] [DecidableEq a] : DecidableEq (Except e a) := fun x y =>
  match x, y with
  | .error e1, .error e2 =>
    if h : e1 = e2 then .isTrue (h ▸ rfl)
    else .isFalse (fun hc => h (Except.error.inj hc))
  | .error _, .ok _ => .isFalse (fun hc => Except.noConfusion hc)
  | .ok _, .error _ => .isFalse (fun hc => Except.noConfusion hc)
  | .ok a1, .ok a2 =>
    if h : a1 = a2 then .isTrue (h ▸ rfl)
    else .isFalse (fun hc => h (Except.ok.inj hc))

/-! ## Theorems -/

/-! ### The little-endian codec -/

theorem toLE_length (w x : Nat) : (toLE w x).length = w := by
  induction w generalizing x with
  | zero => rfl
  | succ w ih => simp [toLE, ih]

theorem fromLE_toLE (w x : Nat) : fromLE (toLE w x) = x % 2 ^ (8 * w) := by
  induction w generalizing x with
  | zero => simp [toLE, fromLE, Nat.mod_one]
  | succ w ih =>
    have hpow : 2 ^ (8 * (w + 1)) = 256 * 2 ^ (8 * w) := by
      rw [Nat.mul_add, pow_add]
      ring
    rw [toLE, fromLE, ih, hpow, Nat.mod_mul]

theorem fromLE_toLE_of_lt {w x : Nat} (h : x < 2 ^ (8 * w)) :
    fromLE (toLE w x) = x := by
  rw [fromLE_toLE, Nat.mod_eq_of_lt h]

/-- Field decomposition of a 10-byte command header followed by `rest`. -/
theorem header_fields (L T C : Nat) (rest : List Nat) :
    (toLE 4 L ++ toLE 2 T ++ toLE 4 C ++ rest).take 4 = toLE 4 L
    ∧ ((toLE 4 L ++ toLE 2 T ++ toLE 4 C ++ rest).drop 4).take 2 = toLE 2 T
    ∧ ((toLE 4 L ++ toLE 2 T ++ toLE 4 C ++ rest).drop 6).take 4 = toLE 4 C
    ∧ (toLE 4 L ++ toLE 2 T ++ toLE 4 C ++ rest).drop 10 = rest
    ∧ (toLE 4 L ++ toLE 2 T ++ toLE 4 C ++ rest).length = 10 + rest.length := by
  have h4 : (toLE 4 L ++ toLE 2 T ++ toLE 4 C ++ rest).drop 4
      = toLE 2 T ++ toLE 4 C ++ rest := List.drop_left' (toLE_length 4 L)
  have h6 : (toLE 4 L ++ toLE 2 T ++ toLE 4 C ++ rest).drop 6
      = toLE 4 C ++ rest := by
    have hdd := List.drop_drop 2 4 (toLE 4 L ++ toLE 2 T ++ toLE 4 C ++ rest)
    rw [h4] at hdd
    rw [← hdd]
    exact List.drop_left' (toLE_length 2 T)
  have h10 : (toLE 4 L ++ toLE 2 T ++ toLE 4 C ++ rest).drop 10 = rest := by
    have hdd := List.drop_drop 4 6 (toLE 4 L ++ toLE 2 T ++ toLE 4 C ++ rest)
    rw [h6] at hdd
    rw [← hdd]
    exact List.drop_left' (toLE_length 4 C)
  refine ⟨List.take_left' (toLE_length 4 L), ?_, ?_, h10, ?_⟩
  · rw [h4]
    exact List.take_left' (toLE_length 2 T)
  · rw [h6]
    exact List.take_left' (toLE_length 4 C)
  · simp only [List.length_append, toLE_length]

/-- Field decomposition of a 4-byte attribute header followed by `rest`. -/
theorem attr_fields (T L : Nat) (rest : List Nat) :
    (toLE 2 T ++ toLE 2 L ++ rest).take 2 = toLE 2 T
    ∧ ((toLE 2 T ++ toLE 2 L ++ rest).drop 2).take 2 = toLE 2 L
    ∧ (toLE 2 T ++ toLE 2 L ++ rest).drop 4 = rest
    ∧ (toLE 2 T ++ toLE 2 L ++ rest).length = 4 + rest.length := by
  have h2 : (toLE 2 T ++ toLE 2 L ++ rest).drop 2 = toLE 2 L ++ rest :=
    List.drop_left' (toLE_length 2 T)
  have h4 : (toLE 2 T ++ toLE 2 L ++ rest).drop 4 = rest := by
    have hdd := List.drop_drop 2 2 (toLE 2 T ++ toLE 2 L ++ rest)
    rw [h2] at hdd
    rw [← hdd]
    exact List.drop_left' (toLE_length 2 L)
  refine ⟨List.take_left' (toLE_length 2 T), ?_, h4, ?_⟩
  · rw [h2]
    exact List.take_left' (toLE_length 2 L)
  · simp only [List.length_append, toLE_length]

/-! ### Bounds for the checksum engine -/

theorem M32_eq : M32 = 2 ^ 32 := by norm_num [M32]

theorem crcStep_lt {x : Nat} (h : x < 2 ^ 32) : crcStep x < 2 ^ 32 := by
  unfold crcStep
  have hdiv : x / 2 < 2 ^ 32 := lt_of_le_of_lt (Nat.div_le_self x 2) h
  split
  · exact Nat.xor_lt_two_pow hdiv (by norm_num)
  · exact hdiv

theorem crcStep8_lt {x : Nat} (h : x < 2 ^ 32) : crcStep8 x < 2 ^ 32 := by
  unfold crcStep8
  exact crcStep_lt (crcStep_lt (crcStep_lt (crcStep_lt
    (crcStep_lt (crcStep_lt (crcStep_lt (crcStep_lt h)))))))

theorem crc32c_table_lt (i : Nat) : crc32c_table i < 2 ^ 32 := by
  unfold crc32c_table
  have : crcStep8 i &&& 0xffffffff ≤ 0xffffffff := Nat.and_le_right
  omega

theorem crc32c_lt (b : List Nat) : crc32c b < 2 ^ 32 := by
  unfold crc32c
  have key : ∀ (l : List Nat) (crc : Nat), crc < 2 ^ 32 →
      l.foldl (fun crc c => (crc >>> 8) ^^^ crc32c_table ((crc ^^^ c) &&& 0xff)) crc < 2 ^ 32 := by
    intro l
    induction l with
    | nil => intro crc h; simpa using h
    | cons c cs ih =>
      intro crc h
      refine ih _ (Nat.xor_lt_two_pow ?_ (crc32c_table_lt _))
      calc crc >>> 8 ≤ crc := by
            rw [Nat.shiftRight_eq_div_pow]
            exact Nat.div_le_self _ _
        _ < 2 ^ 32 := h
  exact key b 0 (by norm_num)

/-! ### The table-driven fold agrees with the bit-at-a-time reflected CRC -/

theorem xor_mod_two (x y : Nat) : (x ^^^ y) % 2 = x % 2 ^^^ y % 2 := by
  have h := Nat.testBit_xor x y 0
  simp only [Nat.testBit_zero] at h
  rcases Nat.mod_two_eq_zero_or_one x with hx | hx <;>
    rcases Nat.mod_two_eq_zero_or_one y with hy | hy <;>
    rcases Nat.mod_two_eq_zero_or_one (x ^^^ y) with hxy | hxy <;>
    simp [hx, hy, hxy] at h ⊢

theorem xor_div_two (x y : Nat) : (x ^^^ y) / 2 = x / 2 ^^^ y / 2 := by
  apply Nat.eq_of_testBit_eq
  intro i
  rw [Nat.testBit_div_two, Nat.testBit_xor, Nat.testBit_xor,
    Nat.testBit_div_two, Nat.testBit_div_two]

theorem xor_left_comm (a b c : Nat) : a ^^^ (b ^^^ c) = b ^^^ (a ^^^ c) := by
  rw [← Nat.xor_assoc, Nat.xor_comm a b, Nat.xor_assoc]

theorem crcStep_xor (x y : Nat) : crcStep (x ^^^ y) = crcStep x ^^^ crcStep y := by
  have hxy := xor_mod_two x y
  rcases Nat.mod_two_eq_zero_or_one x with hx | hx <;>
    rcases Nat.mod_two_eq_zero_or_one y with hy | hy <;>
    rw [hx, hy] at hxy <;>
    simp only [Nat.xor_self, Nat.xor_zero, Nat.zero_xor] at hxy <;>
    simp only [crcStep, hxy, hx, hy, reduceIte] <;>
    simp [xor_div_two, Nat.xor_assoc, Nat.xor_comm, xor_left_comm, Nat.xor_self,
      Nat.xor_zero, Nat.zero_xor]

theorem crcStep8_xor (x y : Nat) : crcStep8 (x ^^^ y) = crcStep8 x ^^^ crcStep8 y := by
  unfold crcStep8
  rw [crcStep_xor, crcStep_xor, crcStep_xor, crcStep_xor,
    crcStep_xor, crcStep_xor, crcStep_xor, crcStep_xor]

theorem crcStep_two_mul (m : Nat) : crcStep (2 * m) = m := by
  unfold crcStep
  rw [Nat.mul_mod_right]
  simp [Nat.mul_div_cancel_left m (show 0 < 2 by norm_num)]

theorem crcStep8_mul256 (k : Nat) : crcStep8 (256 * k) = k := by
  have h : 256 * k = 2 * (2 * (2 * (2 * (2 * (2 * (2 * (2 * k))))))) := by ring
  rw [crcStep8, h, crcStep_two_mul, crcStep_two_mul, crcStep_two_mul, crcStep_two_mul,
    crcStep_two_mul, crcStep_two_mul, crcStep_two_mul, crcStep_two_mul]

/-- Split a natural number into its low byte and the rest, as an XOR. -/
theorem byte_split (y : Nat) : y = (y &&& 255) ^^^ 256 * (y >>> 8) := by
  have hsh : 256 * (y >>> 8) = (y >>> 8) <<< 8 := by
    rw [Nat.shiftLeft_eq]
    ring
  apply Nat.eq_of_testBit_eq
  intro i
  rw [Nat.testBit_xor, Nat.testBit_land, hsh, Nat.testBit_shiftLeft]
  have h255 : (255 : Nat) = 2 ^ 8 - 1 := by norm_num
  rw [h255, Nat.testBit_two_pow_sub_one]
  by_cases hi : i < 8
  · simp [hi, Nat.not_le.mpr hi]
  · have h8i : 8 + (i - 8) = i := by omega
    simp [hi, Nat.not_lt.mp hi, Nat.testBit_shiftRight, h8i]

/-- One table lookup equals eight bit-steps on the low byte, with the high
bits shifted down and XORed back in. -/
theorem crcStep8_byte (y : Nat) : crcStep8 y = (y >>> 8) ^^^ crcStep8 (y &&& 255) := by
  conv_lhs => rw [byte_split y]
  rw [crcStep8_xor, crcStep8_mul256, Nat.xor_comm]

/-- For arguments below 256 the table mask is the identity. -/
theorem crc32c_table_eq (i : Nat) (h : i < 256) : crc32c_table i = crcStep8 i := by
  unfold crc32c_table
  have hlt : crcStep8 i < 2 ^ 32 := crcStep8_lt (lt_trans h (by norm_num))
  have hmask : (0xffffffff : Nat) = 2 ^ 32 - 1 := by norm_num
  rw [hmask, Nat.and_pow_two_sub_one_eq_mod, Nat.mod_eq_of_lt hlt]

/-- XORing in a value below 256 does not change the bits above the low byte. -/
theorem xor_byte_shiftRight (x c : Nat) (h : c < 256) : (x ^^^ c) >>> 8 = x >>> 8 := by
  apply Nat.eq_of_testBit_eq
  intro i
  rw [Nat.testBit_shiftRight, Nat.testBit_shiftRight, Nat.testBit_xor]
  have : c.testBit (8 + i) = false := by
    apply Nat.testBit_lt_two_pow
    calc c < 256 := h
      _ = 2 ^ 8 := by norm_num
      _ ≤ 2 ^ (8 + i) := Nat.pow_le_pow_right (by norm_num) (by omega)
  simp [this]

theorem land_255_lt (z : Nat) : z &&& 255 < 256 := by
  have : z &&& 255 ≤ 255 := Nat.and_le_right
  omega

/-- The table-driven fold of the code equals the bit-at-a-time reflected CRC
on byte strings. -/
theorem crc32c_eq_bitwise_aux (l : List Nat) (hl : ∀ c ∈ l, c < 256) :
    ∀ crc, l.foldl (fun crc c => (crc >>> 8) ^^^ crc32c_table ((crc ^^^ c) &&& 0xff)) crc
      = l.foldl (fun crc c => crcStep8 (crc ^^^ c)) crc := by
  induction l with
  | nil => intro crc; rfl
  | cons c cs ih =>
    intro crc
    have hc : c < 256 := hl c (List.mem_cons_self c cs)
    have hstep : (crc >>> 8) ^^^ crc32c_table ((crc ^^^ c) &&& 0xff)
        = crcStep8 (crc ^^^ c) := by
      rw [crc32c_table_eq _ (land_255_lt _), crcStep8_byte (crc ^^^ c),
        xor_byte_shiftRight crc c hc]
    simp only [List.foldl_cons, hstep]
    exact ih (fun x hx => hl x (List.mem_cons_of_mem c hx)) _

/-! ### Wire-structure arithmetic -/

theorem payloadBytes_nil : payloadBytes [] = [] := rfl

theorem payloadBytes_cons (a : RawAttr) (as : List RawAttr) :
    payloadBytes (a :: as) = encodeAttr a ++ payloadBytes as := by
  simp [payloadBytes]

theorem encodeAttr_length (a : RawAttr) :
    (encodeAttr a).length = 4 + a.value.length := by
  simp only [encodeAttr, List.length_append, toLE_length]

theorem payloadBytes_cons_length (a : RawAttr) (as : List RawAttr) :
    (payloadBytes (a :: as)).length
      = 4 + a.value.length + (payloadBytes as).length := by
  rw [payloadBytes_cons, List.length_append, encodeAttr_length]

theorem length_le_payloadBytes (attrs : List RawAttr) :
    attrs.length ≤ (payloadBytes attrs).length := by
  induction attrs with
  | nil => simp [payloadBytes_nil]
  | cons a as ih =>
    rw [payloadBytes_cons_length]
    simp only [List.length_cons]
    omega

theorem fromLE_toLE2 {x : Nat} (h : x < 65536) : fromLE (toLE 2 x) = x :=
  fromLE_toLE_of_lt (lt_of_lt_of_le h (by norm_num))

theorem fromLE_toLE4 {x : Nat} (h : x < M32) : fromLE (toLE 4 x) = x :=
  fromLE_toLE_of_lt (lt_of_lt_of_le (M32_eq ▸ h) (by norm_num))

theorem sanAttr_type (hasher : List Nat) (a : RawAttr) :
    (sanAttr hasher a).type = a.type := by
  unfold sanAttr
  split_ifs <;> rfl

theorem sanitizeValue_eq (hasher : List Nat) (a : RawAttr) :
    sanitizeValue hasher a.type a.value a.value.length = (sanAttr hasher a).value := by
  unfold sanitizeValue sanAttr
  split_ifs <;> rfl

/-! ### The transform's attribute loop on exactly encoded payloads -/

theorem filterAttrs_encode (hasher : List Nat) (attrs : List RawAttr) :
    ∀ fuel n rest, attrs.length < fuel →
    (∀ a ∈ attrs, wfAttr a) →
    (∀ a ∈ attrs, (sanAttr hasher a).value.length < 65536) →
    filterAttrs hasher fuel n (n + (payloadBytes attrs).length) (payloadBytes attrs ++ rest)
      = .ok (payloadBytes (attrs.map (sanAttr hasher)), n + (payloadBytes attrs).length, rest) := by
  induction attrs with
  | nil =>
    intro fuel n rest hfuel _ _
    match fuel, hfuel with
    | fuel + 1, _ =>
      simp [filterAttrs, payloadBytes_nil]
  | cons a as ih =>
    intro fuel n rest hfuel hwf hsan
    match fuel, hfuel with
    | fuel + 1, hfuel =>
      obtain ⟨hta, hla, -⟩ := hwf a (List.mem_cons_self a as)
      have hsana := hsan a (List.mem_cons_self a as)
      have hinput : payloadBytes (a :: as) ++ rest
          = toLE 2 a.type ++ toLE 2 a.value.length ++ (a.value ++ (payloadBytes as ++ rest)) := by
        simp [payloadBytes_cons, encodeAttr, List.append_assoc]
      obtain ⟨hf1, hf2, hf3, hf4⟩ :=
        attr_fields a.type a.value.length (a.value ++ (payloadBytes as ++ rest))
      have hlen := payloadBytes_cons_length a as
      have hc1 : n < n + (payloadBytes (a :: as)).length := by omega
      have hc2 : ¬ ((toLE 2 a.type ++ toLE 2 a.value.length
          ++ (a.value ++ (payloadBytes as ++ rest))).length < 4) := by
        rw [hf4]
        omega
      have htk : (a.value ++ (payloadBytes as ++ rest)).take a.value.length = a.value :=
        List.take_left' rfl
      have hdr : (a.value ++ (payloadBytes as ++ rest)).drop a.value.length
          = payloadBytes as ++ rest :=
        List.drop_left' rfl
      have harith : n + (payloadBytes (a :: as)).length
          = n + 4 + a.value.length + (payloadBytes as).length := by omega
      have hrec := ih fuel (n + 4 + a.value.length) rest
        (by simp only [List.length_cons] at hfuel; omega)
        (fun x hx => hwf x (List.mem_cons_of_mem a hx))
        (fun x hx => hsan x (List.mem_cons_of_mem a hx))
      rw [hinput]
      simp only [filterAttrs, hf1, hf2, hf3, hf4]
      rw [if_pos hc1]
      simp only [fromLE_toLE2 hta, fromLE_toLE2 hla, htk, hdr, sanitizeValue_eq hasher a]
      rw [if_neg (by omega : ¬ (4 + (a.value ++ (payloadBytes as ++ rest)).length < 4))]
      rw [if_pos hsana]
      rw [harith, hrec]
      simp only [List.map_cons, payloadBytes_cons, encodeAttr, sanAttr_type]

/-! ### The reader's attribute loop on exactly encoded payloads -/

theorem convertAttrValue_ok (a : RawAttr)
    (hts : a.type ∈ timeAttrTypes → a.value.length = 12) :
    convertAttrValue a.type a.value = .ok (convTotal a.type a.value) := by
  by_cases h1 : a.type ∈ intAttrTypes
  · simp [convertAttrValue, convTotal, h1]
  · by_cases h2 : a.type = 8
    · simp [convertAttrValue, convTotal, h2, intAttrTypes]
    · by_cases h3 : a.type ∈ timeAttrTypes
      · simp [convertAttrValue, convTotal, h1, h2, h3, hts h3]
      · simp [convertAttrValue, convTotal, h1, h2, h3]

theorem parseAttrs_encode (attrs : List RawAttr) :
    ∀ fuel n rest, attrs.length < fuel →
    (∀ a ∈ attrs, wfAttr a) →
    (∀ a ∈ attrs, a.type ∈ timeAttrTypes → a.value.length = 12) →
    parseAttrs fuel n (n + (payloadBytes attrs).length) (payloadBytes attrs ++ rest)
      = .ok (attrs.map parsedAttrOf, n + (payloadBytes attrs).length, rest) := by
  induction attrs with
  | nil =>
    intro fuel n rest hfuel _ _
    match fuel, hfuel with
    | fuel + 1, _ =>
      simp [parseAttrs, payloadBytes_nil]
  | cons a as ih =>
    intro fuel n rest hfuel hwf hts
    match fuel, hfuel with
    | fuel + 1, hfuel =>
      obtain ⟨hta, hla, -⟩ := hwf a (List.mem_cons_self a as)
      have hinput : payloadBytes (a :: as) ++ rest
          = toLE 2 a.type ++ toLE 2 a.value.length ++ (a.value ++ (payloadBytes as ++ rest)) := by
        simp [payloadBytes_cons, encodeAttr, List.append_assoc]
      obtain ⟨hf1, hf2, hf3, hf4⟩ :=
        attr_fields a.type a.value.length (a.value ++ (payloadBytes as ++ rest))
      have hlen := payloadBytes_cons_length a as
      have hc1 : n < n + (payloadBytes (a :: as)).length := by omega
      have htk : (a.value ++ (payloadBytes as ++ rest)).take a.value.length = a.value :=
        List.take_left' rfl
      have hdr : (a.value ++ (payloadBytes as ++ rest)).drop a.value.length
          = payloadBytes as ++ rest :=
        List.drop_left' rfl
      have harith : n + (payloadBytes (a :: as)).length
          = n + 4 + a.value.length + (payloadBytes as).length := by omega
      have hrec := ih fuel (n + 4 + a.value.length) rest
        (by simp only [List.length_cons] at hfuel; omega)
        (fun x hx => hwf x (List.mem_cons_of_mem a hx))
        (fun x hx => hts x (List.mem_cons_of_mem a hx))
      have hconv := convertAttrValue_ok a (hts a (List.mem_cons_self a as))
      rw [hinput]
      simp only [parseAttrs, hf1, hf2, hf3, hf4]
      rw [if_pos hc1]
      simp only [fromLE_toLE2 hta, fromLE_toLE2 hla, htk, hdr]
      rw [if_neg (by omega : ¬ (4 + (a.value ++ (payloadBytes as ++ rest)).length < 4))]
      rw [hconv, harith, hrec]
      simp only [List.map_cons, parsedAttrOf]

/-! ### The transform on one exactly encoded command -/

theorem filter_cmd_encode (hasher : List Nat) (c : RawCmd) (rest : List Nat)
    (hwf : wfCmd c) (hsan : sanOK hasher c) (hnx : ¬ (c.type = 13 ∨ c.type = 14)) :
    filter_cmd hasher (encodeCmd c ++ rest)
      = .ok (sanCmdBytes hasher c, rest, decide (c.type = 21)) := by
  obtain ⟨htc, hcc, hlc, hwfa⟩ := hwf
  obtain ⟨hs1, hs2⟩ := hsan
  have hinput : encodeCmd c ++ rest
      = toLE 4 (payloadBytes c.attrs).length ++ toLE 2 c.type ++ toLE 4 c.crc
        ++ (payloadBytes c.attrs ++ rest) := by
    simp [encodeCmd, List.append_assoc]
  obtain ⟨hf1, hf2, hf3, hf4, hf5⟩ :=
    header_fields (payloadBytes c.attrs).length c.type c.crc (payloadBytes c.attrs ++ rest)
  have hattrs := filterAttrs_encode hasher c.attrs ((payloadBytes c.attrs).length + 1) 0 rest
    (by have := length_le_payloadBytes c.attrs; omega) hwfa hs1
  rw [Nat.zero_add] at hattrs
  rw [hinput]
  simp only [filter_cmd, hf1, hf2, hf4, hf5]
  rw [if_neg (by omega : ¬ (10 + (payloadBytes c.attrs ++ rest).length < 10))]
  simp only [fromLE_toLE4 hlc, fromLE_toLE2 htc]
  rw [if_neg hnx, hattrs]
  simp only [hs2, ite_true, if_true]
  simp only [sanCmdBytes, cmdCrc]

theorem filter_cmd_encode_xattr (hasher : List Nat) (c : RawCmd) (rest : List Nat)
    (hwf : wfCmd c) (hx : c.type = 13 ∨ c.type = 14) :
    filter_cmd hasher (encodeCmd c ++ rest) = .ok ([], rest, false) := by
  obtain ⟨htc, hcc, hlc, hwfa⟩ := hwf
  have hinput : encodeCmd c ++ rest
      = toLE 4 (payloadBytes c.attrs).length ++ toLE 2 c.type ++ toLE 4 c.crc
        ++ (payloadBytes c.attrs ++ rest) := by
    simp [encodeCmd, List.append_assoc]
  obtain ⟨hf1, hf2, hf3, hf4, hf5⟩ :=
    header_fields (payloadBytes c.attrs).length c.type c.crc (payloadBytes c.attrs ++ rest)
  rw [hinput]
  simp only [filter_cmd, hf1, hf2, hf4, hf5]
  rw [if_neg (by omega : ¬ (10 + (payloadBytes c.attrs ++ rest).length < 10))]
  simp only [fromLE_toLE4 hlc, fromLE_toLE2 htc]
  rw [if_pos hx]
  rw [List.drop_left' rfl]

theorem filter_cmd_encodeAll (hasher : List Nat) (c : RawCmd) (rest : List Nat)
    (hwf : wfCmd c) (hsan : sanOK hasher c) :
    filter_cmd hasher (encodeCmd c ++ rest)
      = .ok (filteredCmdBytes hasher c, rest, decide (c.type = 21)) := by
  by_cases hx : c.type = 13 ∨ c.type = 14
  · rw [filter_cmd_encode_xattr hasher c rest hwf hx]
    have h21 : decide (c.type = 21) = false := by
      rcases hx with hx | hx <;> simp [hx]
    rw [filteredCmdBytes, if_pos hx, h21]
  · rw [filter_cmd_encode hasher c rest hwf hsan hx]
    rw [filteredCmdBytes, if_neg hx]

/-! ### The loops over a whole encoded stream -/

theorem filterLoop_encode (hasher : List Nat) (cmds : List RawCmd) :
    ∀ fuel garbage, cmds.length ≤ fuel →
    (∀ c ∈ cmds, wfCmd c) → (∀ c ∈ cmds, sanOK hasher c) →
    StreamOK cmds →
    filterLoop hasher fuel ((cmds.map encodeCmd).flatten ++ garbage)
      = .ok ((cmds.map (filteredCmdBytes hasher)).flatten) := by
  induction cmds with
  | nil =>
    intro fuel garbage _ _ _ hok
    exact absurd rfl hok.1
  | cons c cs ih =>
    intro fuel garbage hfuel hwf hsan hok
    match fuel, hfuel with
    | fuel + 1, hfuel =>
      have hflat : ((c :: cs).map encodeCmd).flatten ++ garbage
          = encodeCmd c ++ ((cs.map encodeCmd).flatten ++ garbage) := by
        simp [List.append_assoc]
      simp only [filterLoop]
      rw [hflat, filter_cmd_encodeAll hasher c _ (hwf c (List.mem_cons_self c cs))
        (hsan c (List.mem_cons_self c cs))]
      cases cs with
      | nil =>
        have h21 : c.type = 21 := by
          have := hok.2.2
          simpa using this
        simp [h21, filteredCmdBytes]
      | cons c2 cs2 =>
        have h21 : c.type ≠ 21 := by
          apply hok.2.1 c
          rw [List.dropLast_cons₂]
          exact List.mem_cons_self c _
        have hok2 : StreamOK (c2 :: cs2) := by
          refine ⟨by simp, ?_, ?_⟩
          · intro x hx
            apply hok.2.1 x
            rw [List.dropLast_cons₂]
            exact List.mem_cons_of_mem c hx
          · have := hok.2.2
            rwa [List.getLast?_cons_cons] at this
        rw [decide_eq_false h21]
        simp only [Bool.false_eq_true, if_false]
        rw [ih fuel garbage (by simp only [List.length_cons] at hfuel ⊢; omega)
          (fun x hx => hwf x (List.mem_cons_of_mem c hx))
          (fun x hx => hsan x (List.mem_cons_of_mem c hx)) hok2]
        simp

theorem parseCmds_encode (cmds : List RawCmd) :
    ∀ fuel garbage, cmds.length ≤ fuel →
    (∀ c ∈ cmds, wfCmd c) → (∀ c ∈ cmds, tsOK c) →
    StreamOK cmds →
    parseCmds fuel ((cmds.map encodeCmd).flatten ++ garbage)
      = .ok (cmds.map parsedCmdOf) := by
  induction cmds with
  | nil =>
    intro fuel garbage _ _ _ hok
    exact absurd rfl hok.1
  | cons c cs ih =>
    intro fuel garbage hfuel hwf hts hok
    match fuel, hfuel with
    | fuel + 1, hfuel =>
      obtain ⟨htc, hcc, hlc, hwfa⟩ := hwf c (List.mem_cons_self c cs)
      have hflat : ((c :: cs).map encodeCmd).flatten ++ garbage
          = toLE 4 (payloadBytes c.attrs).length ++ toLE 2 c.type ++ toLE 4 c.crc
            ++ (payloadBytes c.attrs ++ ((cs.map encodeCmd).flatten ++ garbage)) := by
        simp [encodeCmd, List.append_assoc]
      obtain ⟨hf1, hf2, hf3, hf4, hf5⟩ :=
        header_fields (payloadBytes c.attrs).length c.type c.crc
          (payloadBytes c.attrs ++ ((cs.map encodeCmd).flatten ++ garbage))
      have hattrs := parseAttrs_encode c.attrs ((payloadBytes c.attrs).length + 1) 0
        ((cs.map encodeCmd).flatten ++ garbage)
        (by have := length_le_payloadBytes c.attrs; omega) hwfa
        (hts c (List.mem_cons_self c cs))
      rw [Nat.zero_add] at hattrs
      rw [hflat]
      simp only [parseCmds, hf1, hf2, hf3, hf4, hf5]
      rw [if_neg (by omega :
        ¬ (10 + (payloadBytes c.attrs ++ ((cs.map encodeCmd).flatten ++ garbage)).length < 10))]
      simp only [fromLE_toLE4 hlc, fromLE_toLE2 htc, fromLE_toLE4 hcc]
      rw [hattrs]
      cases cs with
      | nil =>
        have h21 : c.type = 21 := by
          have := hok.2.2
          simpa using this
        simp only [h21, reduceIte]
        simp [parsedCmdOf, h21]
      | cons c2 cs2 =>
        have h21 : c.type ≠ 21 := by
          apply hok.2.1 c
          rw [List.dropLast_cons₂]
          exact List.mem_cons_self c _
        have hok2 : StreamOK (c2 :: cs2) := by
          refine ⟨by simp, ?_, ?_⟩
          · intro x hx
            apply hok.2.1 x
            rw [List.dropLast_cons₂]
            exact List.mem_cons_of_mem c hx
          · have := hok.2.2
            rwa [List.getLast?_cons_cons] at this
        simp only [h21, reduceIte]
        rw [ih fuel garbage (by simp only [List.length_cons] at hfuel ⊢; omega)
          (fun x hx => hwf x (List.mem_cons_of_mem c hx))
          (fun x hx => hts x (List.mem_cons_of_mem c hx)) hok2]
        simp [parsedCmdOf]

/-! ### Whole-stream lemmas -/

theorem encodeCmd_length (c : RawCmd) :
    (encodeCmd c).length = 10 + (payloadBytes c.attrs).length := by
  simp only [encodeCmd, List.length_append, toLE_length]

theorem length_le_flatten_encode (cmds : List RawCmd) :
    cmds.length ≤ ((cmds.map encodeCmd).flatten).length := by
  induction cmds with
  | nil => simp
  | cons c cs ih =>
    simp only [List.map_cons, List.flatten_cons, List.length_append, List.length_cons,
      encodeCmd_length]
    omega

theorem parse_send_stream_encode (cmds : List RawCmd) (garbage : List Nat)
    (hwf : ∀ c ∈ cmds, wfCmd c) (hts : ∀ c ∈ cmds, tsOK c) (hok : StreamOK cmds) :
    parse_send_stream (encodeStream cmds ++ garbage) = .ok (cmds.map parsedCmdOf) := by
  have hinput : encodeStream cmds ++ garbage
      = MAGIC ++ (toLE 4 1 ++ ((cmds.map encodeCmd).flatten ++ garbage)) := by
    simp [encodeStream, List.append_assoc]
  have htake : (MAGIC ++ (toLE 4 1 ++ ((cmds.map encodeCmd).flatten ++ garbage))).take 13
      = MAGIC := List.take_left' rfl
  have hdrop13 : (MAGIC ++ (toLE 4 1 ++ ((cmds.map encodeCmd).flatten ++ garbage))).drop 13
      = toLE 4 1 ++ ((cmds.map encodeCmd).flatten ++ garbage) := List.drop_left' rfl
  have hver : (toLE 4 1 ++ ((cmds.map encodeCmd).flatten ++ garbage)).take 4 = toLE 4 1 :=
    List.take_left' (toLE_length 4 1)
  have hdrop17 : (MAGIC ++ (toLE 4 1 ++ ((cmds.map encodeCmd).flatten ++ garbage))).drop 17
      = (cmds.map encodeCmd).flatten ++ garbage := by
    have hdd := List.drop_drop 4 13 (MAGIC ++ (toLE 4 1 ++ ((cmds.map encodeCmd).flatten ++ garbage)))
    rw [hdrop13] at hdd
    rw [← hdd]
    exact List.drop_left' (toLE_length 4 1)
  have hlen4 : ¬ ((toLE 4 1 ++ ((cmds.map encodeCmd).flatten ++ garbage)).length < 4) := by
    simp [toLE_length]
  rw [hinput]
  unfold parse_send_stream
  rw [htake]
  rw [if_neg (by simp : ¬ (MAGIC ≠ MAGIC))]
  rw [hdrop13, if_neg hlen4, hver]
  rw [if_neg (by norm_num [toLE, fromLE] : ¬ (fromLE (toLE 4 1) ≠ 1))]
  rw [hdrop17]
  apply parseCmds_encode cmds _ garbage _ hwf hts hok
  have h1 := length_le_flatten_encode cmds
  simp only [List.length_append]
  omega

theorem filter_send_stream_encode (cmds : List RawCmd) (salt garbage : List Nat)
    (hwf : ∀ c ∈ cmds, wfCmd c) (hsan : ∀ c ∈ cmds, sanOK salt c) (hok : StreamOK cmds) :
    filter_send_stream (encodeStream cmds ++ garbage) salt
      = .ok (MAGIC ++ toLE 4 1 ++ (cmds.map (filteredCmdBytes salt)).flatten) := by
  have hinput : encodeStream cmds ++ garbage
      = MAGIC ++ (toLE 4 1 ++ ((cmds.map encodeCmd).flatten ++ garbage)) := by
    simp [encodeStream, List.append_assoc]
  have htake : (MAGIC ++ (toLE 4 1 ++ ((cmds.map encodeCmd).flatten ++ garbage))).take 13
      = MAGIC := List.take_left' rfl
  have hdrop13 : (MAGIC ++ (toLE 4 1 ++ ((cmds.map encodeCmd).flatten ++ garbage))).drop 13
      = toLE 4 1 ++ ((cmds.map encodeCmd).flatten ++ garbage) := List.drop_left' rfl
  have hver : (toLE 4 1 ++ ((cmds.map encodeCmd).flatten ++ garbage)).take 4 = toLE 4 1 :=
    List.take_left' (toLE_length 4 1)
  have hdrop17 : (MAGIC ++ (toLE 4 1 ++ ((cmds.map encodeCmd).flatten ++ garbage))).drop 17
      = (cmds.map encodeCmd).flatten ++ garbage := by
    have hdd := List.drop_drop 4 13 (MAGIC ++ (toLE 4 1 ++ ((cmds.map encodeCmd).flatten ++ garbage)))
    rw [hdrop13] at hdd
    rw [← hdd]
    exact List.drop_left' (toLE_length 4 1)
  have hlen4 : ¬ ((toLE 4 1 ++ ((cmds.map encodeCmd).flatten ++ garbage)).length < 4) := by
    simp [toLE_length]
  have hloop := filterLoop_encode salt cmds
    ((MAGIC ++ (toLE 4 1 ++ ((cmds.map encodeCmd).flatten ++ garbage))).length + 1) garbage
    (by
      have h1 := length_le_flatten_encode cmds
      simp only [List.length_append]
      omega)
    hwf hsan hok
  rw [hinput]
  unfold filter_send_stream
  rw [htake]
  rw [if_neg (by simp : ¬ (MAGIC ≠ MAGIC))]
  rw [hdrop13, if_neg hlen4, hver]
  rw [if_neg (by norm_num [toLE, fromLE] : ¬ (fromLE (toLE 4 1) ≠ 1))]
  rw [hdrop17, hloop]

/-! ### Identity and erasure helpers -/

theorem sanAttr_id (hasher : List Nat) (a : RawAttr)
    (h15 : a.type ∉ pathAttrTypes) (h0 : a.type ∉ zeroAttrTypes) :
    sanAttr hasher a = a := by
  simp [sanAttr, h15, h0]

theorem filteredCmdBytes_id (salt : List Nat) (c : RawCmd)
    (hx : ¬ (c.type = 13 ∨ c.type = 14))
    (hben : ∀ a ∈ c.attrs, a.type ∉ pathAttrTypes ∧ a.type ∉ zeroAttrTypes)
    (hcrc : c.crc = cmdCrc c.type (payloadBytes c.attrs)) :
    filteredCmdBytes salt c = encodeCmd c := by
  have hmap : c.attrs.map (sanAttr salt) = c.attrs := by
    have := List.map_congr_left (f := sanAttr salt) (g := id)
      (fun a ha => sanAttr_id salt a (hben a ha).1 (hben a ha).2)
    rw [this, List.map_id]
  rw [filteredCmdBytes, if_neg hx, sanCmdBytes, hmap, encodeCmd, hcrc]

theorem map_eq_self {α : Type} (l : List α) (f : α → α) (h : ∀ a ∈ l, f a = a) :
    l.map f = l := by
  induction l with
  | nil => rfl
  | cons a as ih =>
    simp only [List.map_cons, h a (List.mem_cons_self a as),
      ih (fun x hx => h x (List.mem_cons_of_mem a hx))]

/-- An emitted command always validates against its own bytes. -/
theorem checkCmdBytes_san (hasher : List Nat) (c : RawCmd) :
    checkCmdBytes (sanCmdBytes hasher c) = true := by
  obtain ⟨hf1, hf2, hf3, hf4, hf5⟩ :=
    header_fields (payloadBytes (c.attrs.map (sanAttr hasher))).length c.type
      (cmdCrc c.type (payloadBytes (c.attrs.map (sanAttr hasher))))
      (payloadBytes (c.attrs.map (sanAttr hasher)))
  have h6 : (toLE 4 (payloadBytes (c.attrs.map (sanAttr hasher))).length ++ toLE 2 c.type
      ++ toLE 4 (cmdCrc c.type (payloadBytes (c.attrs.map (sanAttr hasher))))
      ++ payloadBytes (c.attrs.map (sanAttr hasher))).take 6
      = toLE 4 (payloadBytes (c.attrs.map (sanAttr hasher))).length ++ toLE 2 c.type := by
    rw [show toLE 4 (payloadBytes (c.attrs.map (sanAttr hasher))).length ++ toLE 2 c.type
        ++ toLE 4 (cmdCrc c.type (payloadBytes (c.attrs.map (sanAttr hasher))))
        ++ payloadBytes (c.attrs.map (sanAttr hasher))
      = (toLE 4 (payloadBytes (c.attrs.map (sanAttr hasher))).length ++ toLE 2 c.type)
        ++ (toLE 4 (cmdCrc c.type (payloadBytes (c.attrs.map (sanAttr hasher))))
          ++ payloadBytes (c.attrs.map (sanAttr hasher))) from by
      simp [List.append_assoc]]
    exact List.take_left' (by simp [List.length_append, toLE_length])
  have hcrclt : cmdCrc c.type (payloadBytes (c.attrs.map (sanAttr hasher))) < M32 := by
    rw [M32_eq]
    exact crc32c_lt _
  rw [sanCmdBytes, checkCmdBytes, hf3, hf4, h6, fromLE_toLE4 hcrclt]
  rw [show ([0, 0, 0, 0] : List Nat) = toLE 4 0 from rfl]
  rw [cmdCrc]
  simp [List.append_assoc]

/-- The reader's attribute loop never stops before the declared payload
length: on success the final consumed count is at least `cmdLen`. -/
theorem parseAttrs_consumed :
    ∀ (fuel n cmdLen : Nat) (input : List Nat) (attrs : List Attr) (n2 : Nat) (rem : List Nat),
    parseAttrs fuel n cmdLen input = .ok (attrs, n2, rem) → n ≤ n2 ∧ cmdLen ≤ n2 := by
  intro fuel
  induction fuel with
  | zero =>
    intro n cmdLen input attrs n2 rem h
    simp [parseAttrs] at h
  | succ fuel ih =>
    intro n cmdLen input attrs n2 rem h
    simp only [parseAttrs] at h
    by_cases hc : n < cmdLen
    · rw [if_pos hc] at h
      by_cases hlen : input.length < 4
      · rw [if_pos hlen] at h
        exact absurd h (by simp)
      · rw [if_neg hlen] at h
        split at h
        · exact absurd h (by simp)
        · split at h
          · exact absurd h (by simp)
          · rename_i av hav out hrec
            simp only [Except.ok.injEq, Prod.mk.injEq] at h
            obtain ⟨-, h2, -⟩ := h
            obtain ⟨hn, hcl⟩ := ih _ _ _ _ _ _ hrec
            omega
    · rw [if_neg hc] at h
      simp only [Except.ok.injEq, Prod.mk.injEq] at h
      obtain ⟨-, h2, -⟩ := h
      omega

/-- Same for the transform's attribute loop. -/
theorem filterAttrs_consumed :
    ∀ (hasher : List Nat) (fuel n cmdLen : Nat) (input : List Nat)
      (out : List Nat) (n2 : Nat) (rem : List Nat),
    filterAttrs hasher fuel n cmdLen input = .ok (out, n2, rem) → n ≤ n2 ∧ cmdLen ≤ n2 := by
  intro hasher fuel
  induction fuel with
  | zero =>
    intro n cmdLen input out n2 rem h
    simp [filterAttrs] at h
  | succ fuel ih =>
    intro n cmdLen input out n2 rem h
    simp only [filterAttrs] at h
    by_cases hc : n < cmdLen
    · rw [if_pos hc] at h
      by_cases hlen : input.length < 4
      · rw [if_pos hlen] at h
        exact absurd h (by simp)
      · rw [if_neg hlen] at h
        split at h
        · split at h
          · exact absurd h (by simp)
          · rename_i hv res hrec
            simp only [Except.ok.injEq, Prod.mk.injEq] at h
            obtain ⟨-, h2, -⟩ := h
            obtain ⟨hn, hcl⟩ := ih _ _ _ _ _ _ hrec
            omega
        · exact absurd h (by simp)
    · rw [if_neg hc] at h
      simp only [Except.ok.injEq, Prod.mk.injEq] at h
      obtain ⟨-, h2, -⟩ := h
      omega

theorem filteredCmdBytes_erase (salt : List Nat) (c : RawCmd) :
    filteredCmdBytes salt (eraseRawCrc c) = filteredCmdBytes salt c := rfl

theorem parsedCmdOf_erase (c : RawCmd) :
    eraseCrc (parsedCmdOf c) = parsedCmdOf (eraseRawCrc c) := rfl

theorem not_mem_path_of_ge {t : Nat} (h : 23 ≤ t) : t ∉ pathAttrTypes := by
  intro hm
  simp only [pathAttrTypes, List.mem_cons, List.not_mem_nil, or_false] at hm
  rcases hm with h1 | h1 | h1 | h1 <;> omega

theorem not_mem_zero_of_ge {t : Nat} (h : 20 ≤ t) : t ∉ zeroAttrTypes := by
  intro hm
  simp only [zeroAttrTypes, List.mem_cons, List.not_mem_nil, or_false] at hm
  rcases hm with h1 | h1 | h1 | h1 | h1 | h1 | h1 <;> omega

theorem not_mem_int_of_ge {t : Nat} (h : 25 ≤ t) : t ∉ intAttrTypes := by
  intro hm
  simp only [intAttrTypes, List.mem_cons, List.not_mem_nil, or_false] at hm
  rcases hm with h1 | h1 | h1 | h1 | h1 | h1 | h1 | h1 | h1 | h1 <;> omega

theorem not_mem_time_of_ge {t : Nat} (h : 13 ≤ t) : t ∉ timeAttrTypes := by
  intro hm
  simp only [timeAttrTypes, List.mem_cons, List.not_mem_nil, or_false] at hm
  rcases hm with h1 | h1 | h1 | h1 <;> omega

/-! ## Claims -/

/-- C1 (counterexample): the one-shot `crc32c` does not use the
seed-`0xFFFFFFFF` / final-XOR convention the claim states: on the single
zero byte the code returns `0`, while the claimed convention returns
`0x527D5351`. -/
theorem C1_seed_finalize_counterexample :
    crc32c [0] = 0 ∧ crc32c_specConvention [0] = 0x527d5351
      ∧ crc32c [0] ≠ crc32c_specConvention [0] :=
  ⟨by decide, by decide, by decide⟩

/-- C1 (amended): for every byte string `b`, `crc32c b` equals the
table-driven reflected CRC with polynomial `0x82F63B78` folded over `b`
starting from accumulator `0` with no finalizing XOR — equivalently, the
bit-at-a-time reflected CRC `crc32c_bitwise` seeded with `0`. -/
theorem C1_crc32c_is_reflected_crc_seed_zero (b : List Nat)
    (hb : ∀ c ∈ b, c < 256) : crc32c b = crc32c_bitwise b := by
  unfold crc32c crc32c_bitwise
  exact crc32c_eq_bitwise_aux b hb 0

theorem C1_crc32c_is_reflected_crc_seed_zero_witness :
    (∀ c ∈ [0, 255, 1, 128], c < 256)
      ∧ crc32c [0, 255, 1, 128] = crc32c_bitwise [0, 255, 1, 128] :=
  ⟨by decide, C1_crc32c_is_reflected_crc_seed_zero [0, 255, 1, 128] (by decide)⟩

/-- C2 (code behaviour at the failing input): sanitizing the PATH value
`b"foo/bar"` with an empty salt yields
`hexdigest(md5(b"foo")) / hexdigest(md5(b"foobar"))`, not
`hexdigest(md5(b"foo")) / hexdigest(md5(b"bar"))` as the claim (and the
code's own comment) state: the local hasher is rebound to the updated copy,
so the second component's digest covers the first component as well. -/
theorem C2_filter_path_accumulates_components :
    filter_path [102, 111, 111, 47, 98, 97, 114] []
        = md5Hex [102, 111, 111] ++ 47 :: md5Hex [102, 111, 111, 98, 97, 114]
      ∧ md5Hex [102, 111, 111, 98, 97, 114] ≠ md5Hex [98, 97, 114] :=
  ⟨by decide, by decide⟩

/-- C3 (counterexample): a stream whose single command declares a 6-byte
payload but whose first attribute TLV occupies 8 bytes is accepted by both
the reader and the transform with no error: the reader yields the command
(having consumed 8 payload bytes, more than declared), and the transform
emits output. -/
theorem C3_boundary_crossing_counterexample :
    parse_send_stream
        [98, 116, 114, 102, 115, 45, 115, 116, 114, 101, 97, 109, 0,
         1, 0, 0, 0, 6, 0, 0, 0, 21, 0, 0, 0, 0, 0, 0, 0, 4, 0, 1, 2, 3, 4]
        = .ok [⟨21, [⟨0, AttrValue.raw [1, 2, 3, 4]⟩], 0⟩]
      ∧ (filter_send_stream
          [98, 116, 114, 102, 115, 45, 115, 116, 114, 101, 97, 109, 0,
           1, 0, 0, 0, 6, 0, 0, 0, 21, 0, 0, 0, 0, 0, 0, 0, 4, 0, 1, 2, 3, 4]
          []).isOk = true
      ∧ fromLE (([98, 116, 114, 102, 115, 45, 115, 116, 114, 101, 97, 109, 0,
           1, 0, 0, 0, 6, 0, 0, 0, 21, 0, 0, 0, 0, 0, 0, 0, 4, 0, 1, 2, 3, 4].drop 17).take 4) = 6
      ∧ 4 + ([1, 2, 3, 4] : List Nat).length ≠ 6 :=
  ⟨by decide, by decide, by decide, by decide⟩

/-- C3 (amended): both attribute loops run while the consumed count is
strictly below the declared payload length, so on success the final consumed
count is at least the declared length (under-consumption is impossible), but
exact equality is not enforced: a TLV crossing the declared boundary is
silently accepted with the consumed count exceeding the declared length. -/
theorem C3_attr_loops_never_underconsume :
    (∀ (fuel n cmdLen : Nat) (input : List Nat) (attrs : List Attr) (n2 : Nat) (rem : List Nat),
      parseAttrs fuel n cmdLen input = .ok (attrs, n2, rem) → n ≤ n2 ∧ cmdLen ≤ n2)
    ∧ (∀ (hasher : List Nat) (fuel n cmdLen : Nat) (input out : List Nat) (n2 : Nat) (rem : List Nat),
      filterAttrs hasher fuel n cmdLen input = .ok (out, n2, rem) → n ≤ n2 ∧ cmdLen ≤ n2) :=
  ⟨parseAttrs_consumed, filterAttrs_consumed⟩

theorem C3_attr_loops_never_underconsume_witness :
    ((0 ≤ 8 ∧ 6 ≤ 8) ∧ (0 ≤ 8 ∧ 6 ≤ 8) : Prop) :=
  ⟨C3_attr_loops_never_underconsume.1 7 0 6 [0, 0, 4, 0, 1, 2, 3, 4]
      [⟨0, AttrValue.raw [1, 2, 3, 4]⟩] 8 [] (by decide),
    C3_attr_loops_never_underconsume.2 [] 7 0 6 [0, 0, 4, 0, 1, 2, 3, 4]
      [0, 0, 4, 0, 1, 2, 3, 4] 8 [] (by decide)⟩

/-- C4 (counterexample): a stream whose END command stores checksum
`0x04030201` — not the correct `0x9DC96C50` — is not rejected: the transform
emits the sanitized command (with the freshly computed checksum) instead of
aborting. -/
theorem C4_no_abort_on_checksum_mismatch_counterexample :
    crc32c (toLE 4 0 ++ toLE 2 21 ++ toLE 4 0) ≠ fromLE [1, 2, 3, 4]
      ∧ filter_send_stream
          [98, 116, 114, 102, 115, 45, 115, 116, 114, 101, 97, 109, 0,
           1, 0, 0, 0, 0, 0, 0, 0, 21, 0, 1, 2, 3, 4] []
        = .ok [98, 116, 114, 102, 115, 45, 115, 116, 114, 101, 97, 109, 0,
           1, 0, 0, 0, 0, 0, 0, 0, 21, 0, 80, 108, 201, 157] :=
  ⟨by decide, by decide⟩

/-- C4 (amended): the transform never compares the stored checksum with a
recomputed value; it reads and discards the checksum field, so its result is
identical for any two inputs differing only in that field. -/
theorem C4_transform_ignores_stored_checksum (hasher : List Nat) (L T c1 c2 : Nat)
    (rest : List Nat) :
    filter_cmd hasher (toLE 4 L ++ toLE 2 T ++ toLE 4 c1 ++ rest)
      = filter_cmd hasher (toLE 4 L ++ toLE 2 T ++ toLE 4 c2 ++ rest) := by
  obtain ⟨ha1, ha2, ha3, ha4, ha5⟩ := header_fields L T c1 rest
  obtain ⟨hb1, hb2, hb3, hb4, hb5⟩ := header_fields L T c2 rest
  simp only [filter_cmd, ha1, ha2, ha4, ha5, hb1, hb2, hb4, hb5]

/-- C5: for every non-elided command, the transform emits the 10-byte header
(new payload length, original type, new checksum) followed by the new
payload, where the checksum is computed over the new header with a zeroed
checksum field plus the new payload; the emitted command verifies against
its own bytes, and DATA attributes are redacted to all-zero bytes of the
original length. -/
theorem C5_emitted_command_verifies (hasher : List Nat) (c : RawCmd) (rest : List Nat)
    (hwf : wfCmd c) (hsan : sanOK hasher c) (hnx : ¬ (c.type = 13 ∨ c.type = 14)) :
    filter_cmd hasher (encodeCmd c ++ rest)
        = .ok (sanCmdBytes hasher c, rest, decide (c.type = 21))
      ∧ sanCmdBytes hasher c
        = toLE 4 (payloadBytes (c.attrs.map (sanAttr hasher))).length ++ toLE 2 c.type
          ++ toLE 4 (crc32c (toLE 4 (payloadBytes (c.attrs.map (sanAttr hasher))).length
            ++ toLE 2 c.type ++ toLE 4 0 ++ payloadBytes (c.attrs.map (sanAttr hasher))))
          ++ payloadBytes (c.attrs.map (sanAttr hasher))
      ∧ checkCmdBytes (sanCmdBytes hasher c) = true
      ∧ (∀ a ∈ c.attrs, a.type = 19 →
          (sanAttr hasher a).value = List.replicate a.value.length 0) := by
  refine ⟨filter_cmd_encode hasher c rest hwf hsan hnx, rfl, checkCmdBytes_san hasher c, ?_⟩
  intro a ha h19
  simp [sanAttr, h19, pathAttrTypes, zeroAttrTypes]

theorem C5_emitted_command_verifies_witness :
    filter_cmd [] (encodeCmd ⟨15, 0, [⟨19, [7, 8, 9]⟩]⟩ ++ [5, 5])
      = .ok (sanCmdBytes [] ⟨15, 0, [⟨19, [7, 8, 9]⟩]⟩, [5, 5], decide ((15 : Nat) = 21)) :=
  (C5_emitted_command_verifies [] ⟨15, 0, [⟨19, [7, 8, 9]⟩]⟩ [5, 5]
    (by decide) (by decide) (by decide)).1

/-- C6: on a well-formed stream with valid checksums, no redaction-triggering
attribute types and no xattr commands, the transform reproduces the input
bytes exactly, including every checksum field. -/
theorem C6_identity_roundtrip (cmds : List RawCmd) (salt : List Nat)
    (hwf : ∀ c ∈ cmds, wfCmd c)
    (hben : ∀ c ∈ cmds, ∀ a ∈ c.attrs, a.type ∉ pathAttrTypes ∧ a.type ∉ zeroAttrTypes)
    (hnx : ∀ c ∈ cmds, ¬ (c.type = 13 ∨ c.type = 14))
    (hcrc : ∀ c ∈ cmds, c.crc = cmdCrc c.type (payloadBytes c.attrs))
    (hok : StreamOK cmds) :
    filter_send_stream (encodeStream cmds) salt = .ok (encodeStream cmds) := by
  have hsan : ∀ c ∈ cmds, sanOK salt c := by
    intro c hc
    have hmap : c.attrs.map (sanAttr salt) = c.attrs :=
      map_eq_self c.attrs (sanAttr salt)
        (fun a ha => sanAttr_id salt a (hben c hc a ha).1 (hben c hc a ha).2)
    constructor
    · intro a ha
      rw [sanAttr_id salt a (hben c hc a ha).1 (hben c hc a ha).2]
      exact ((hwf c hc).2.2.2 a ha).2.1
    · rw [hmap]
      exact (hwf c hc).2.2.1
  have h := filter_send_stream_encode cmds salt [] hwf hsan hok
  rw [List.append_nil] at h
  have hmapeq : cmds.map (filteredCmdBytes salt) = cmds.map encodeCmd :=
    List.map_congr_left
      (fun c hc => filteredCmdBytes_id salt c (hnx c hc) (hben c hc) (hcrc c hc))
  rw [h, encodeStream, hmapeq]

theorem C6_identity_roundtrip_witness :
    filter_send_stream
        (encodeStream [⟨9, 2391569600, [⟨1, [7]⟩]⟩, ⟨21, 2647223376, []⟩]) []
      = .ok (encodeStream [⟨9, 2391569600, [⟨1, [7]⟩]⟩, ⟨21, 2647223376, []⟩]) :=
  C6_identity_roundtrip [⟨9, 2391569600, [⟨1, [7]⟩]⟩, ⟨21, 2647223376, []⟩] []
    (by decide) (by decide) (by decide) (by decide) (by decide)

/-- C7: SET_XATTR and REMOVE_XATTR commands contribute zero output bytes
(the whole command disappears), their declared payload is still consumed
from the input, and all other commands are emitted, sanitized, in their
original relative order. -/
theorem C7_xattr_commands_elided (cmds : List RawCmd) (salt : List Nat)
    (hwf : ∀ c ∈ cmds, wfCmd c) (hsan : ∀ c ∈ cmds, sanOK salt c)
    (hok : StreamOK cmds)
    (_hx : ∃ c, c ∈ cmds ∧ (c.type = 13 ∨ c.type = 14)) :
    filter_send_stream (encodeStream cmds) salt
        = .ok (MAGIC ++ toLE 4 1 ++ (cmds.map (filteredCmdBytes salt)).flatten)
      ∧ (∀ c ∈ cmds, (c.type = 13 ∨ c.type = 14) → filteredCmdBytes salt c = [])
      ∧ (∀ (c : RawCmd) (rest2 : List Nat), wfCmd c → (c.type = 13 ∨ c.type = 14) →
          filter_cmd salt (encodeCmd c ++ rest2) = .ok ([], rest2, false)) := by
  refine ⟨?_, ?_, ?_⟩
  · have h := filter_send_stream_encode cmds salt [] hwf hsan hok
    rwa [List.append_nil] at h
  · intro c hc h13
    rw [filteredCmdBytes, if_pos h13]
  · intro c rest2 hwfc h13
    exact filter_cmd_encode_xattr salt c rest2 hwfc h13

theorem C7_xattr_commands_elided_witness :
    filter_send_stream (encodeStream [⟨13, 0, []⟩, ⟨21, 2647223376, []⟩]) []
      = .ok (MAGIC ++ toLE 4 1
        ++ (([⟨13, 0, []⟩, ⟨21, 2647223376, []⟩] : List RawCmd).map
          (filteredCmdBytes [])).flatten) :=
  (C7_xattr_commands_elided [⟨13, 0, []⟩, ⟨21, 2647223376, []⟩] []
    (by decide) (by decide) (by decide) ⟨⟨13, 0, []⟩, by decide, Or.inl rfl⟩).1

/-- C8: the reader yields exactly the commands up to and including the first
END command; its result — and the transform's output — is unchanged by
arbitrary trailing bytes after the END command's payload, so no byte beyond
it is ever read. -/
theorem C8_reader_stops_at_END (cmds : List RawCmd) (garbage salt : List Nat)
    (hwf : ∀ c ∈ cmds, wfCmd c) (hts : ∀ c ∈ cmds, tsOK c)
    (hsan : ∀ c ∈ cmds, sanOK salt c) (hok : StreamOK cmds) :
    parse_send_stream (encodeStream cmds ++ garbage) = .ok (cmds.map parsedCmdOf)
      ∧ parse_send_stream (encodeStream cmds) = .ok (cmds.map parsedCmdOf)
      ∧ filter_send_stream (encodeStream cmds ++ garbage) salt
          = filter_send_stream (encodeStream cmds) salt := by
  refine ⟨parse_send_stream_encode cmds garbage hwf hts hok, ?_, ?_⟩
  · have h := parse_send_stream_encode cmds [] hwf hts hok
    rwa [List.append_nil] at h
  · rw [filter_send_stream_encode cmds salt garbage hwf hsan hok]
    have h := filter_send_stream_encode cmds salt [] hwf hsan hok
    rw [List.append_nil] at h
    rw [h]

theorem C8_reader_stops_at_END_witness :
    parse_send_stream (encodeStream [⟨21, 2647223376, []⟩] ++ [9, 9, 9])
      = .ok (([⟨21, 2647223376, []⟩] : List RawCmd).map parsedCmdOf) :=
  (C8_reader_stops_at_END [⟨21, 2647223376, []⟩] [9, 9, 9] []
    (by decide) (by decide) (by decide) (by decide)).1

/-- C9: commands and attributes with unrecognized type codes are decoded
without error — the numeric code is preserved and the attribute value is
kept as raw bytes — and the transform passes such attributes through
unchanged. -/
theorem C9_unknown_type_codes (c e : RawCmd) (salt rest : List Nat)
    (hwfc : wfCmd c) (hwfe : wfCmd e)
    (hcu : 23 ≤ c.type)
    (hau : ∀ a ∈ c.attrs, 25 ≤ a.type)
    (he : e.type = 21) (hte : tsOK e) :
    parse_send_stream (encodeStream [c, e])
        = .ok [⟨c.type, c.attrs.map (fun a => ⟨a.type, AttrValue.raw a.value⟩), c.crc⟩,
            parsedCmdOf e]
      ∧ filter_cmd salt (encodeCmd c ++ rest)
          = .ok (toLE 4 (payloadBytes c.attrs).length ++ toLE 2 c.type
              ++ toLE 4 (cmdCrc c.type (payloadBytes c.attrs)) ++ payloadBytes c.attrs,
            rest, false) := by
  have hmap : c.attrs.map (sanAttr salt) = c.attrs :=
    map_eq_self c.attrs (sanAttr salt) (fun a ha =>
      sanAttr_id salt a (not_mem_path_of_ge (by have := hau a ha; omega))
        (not_mem_zero_of_ge (by have := hau a ha; omega)))
  have hok : StreamOK [c, e] := by
    refine ⟨by simp, ?_, by simp [he]⟩
    intro x hx
    simp only [List.dropLast_cons₂, List.dropLast_single, List.mem_singleton] at hx
    subst hx
    omega
  have hts : ∀ x ∈ [c, e], tsOK x := by
    intro x hx
    simp only [List.mem_cons, List.mem_singleton, List.not_mem_nil, or_false] at hx
    rcases hx with hx | hx
    · subst hx
      intro a ha hmem
      exact absurd hmem (not_mem_time_of_ge (by have := hau a ha; omega))
    · subst hx
      exact hte
  have hwfall : ∀ x ∈ [c, e], wfCmd x := by
    intro x hx
    simp only [List.mem_cons, List.mem_singleton, List.not_mem_nil, or_false] at hx
    rcases hx with hx | hx <;> subst hx
    · exact hwfc
    · exact hwfe
  constructor
  · have h := parse_send_stream_encode [c, e] [] hwfall hts hok
    rw [List.append_nil] at h
    rw [h]
    simp only [List.map_cons, List.map_nil]
    have hconv : c.attrs.map parsedAttrOf
        = c.attrs.map (fun a => (⟨a.type, AttrValue.raw a.value⟩ : Attr)) := by
      apply List.map_congr_left
      intro a ha
      have h25 := hau a ha
      have h1 : a.type ∉ intAttrTypes := not_mem_int_of_ge (by omega)
      have h2 : a.type ≠ 8 := by omega
      have h3 : a.type ∉ timeAttrTypes := not_mem_time_of_ge (by omega)
      simp [parsedAttrOf, convTotal, h1, h2, h3]
    rw [show parsedCmdOf c = ⟨c.type, c.attrs.map parsedAttrOf, c.crc⟩ from rfl, hconv]
  · have hsanc : sanOK salt c := by
      constructor
      · intro a ha
        rw [sanAttr_id salt a (not_mem_path_of_ge (by have := hau a ha; omega))
          (not_mem_zero_of_ge (by have := hau a ha; omega))]
        exact (hwfc.2.2.2 a ha).2.1
      · rw [hmap]
        exact hwfc.2.2.1
    have h := filter_cmd_encode salt c rest hwfc hsanc (by omega)
    rw [h, sanCmdBytes, hmap, cmdCrc]
    have h21 : decide (c.type = 21) = false := decide_eq_false (by omega)
    rw [h21]

theorem C9_unknown_type_codes_witness :
    parse_send_stream (encodeStream [⟨100, 0, [⟨200, [1, 2]⟩]⟩, ⟨21, 0, []⟩])
      = .ok [⟨100, [⟨200, AttrValue.raw [1, 2]⟩], 0⟩, parsedCmdOf ⟨21, 0, []⟩] :=
  (C9_unknown_type_codes ⟨100, 0, [⟨200, [1, 2]⟩]⟩ ⟨21, 0, []⟩ [] []
    (by decide) (by decide) (by decide) (by decide) (by decide) (by decide)).1

/-- C10: neither program compares the stored checksum to a recomputed value:
for two streams that are byte-identical except in the command headers'
checksum fields, the transform's outputs are byte-identical and the reader's
outputs agree except in the reported `crc` field. -/
theorem C10_checksum_never_checked (cmds1 cmds2 : List RawCmd) (salt : List Nat)
    (hrel : cmds1.map eraseRawCrc = cmds2.map eraseRawCrc)
    (hwf1 : ∀ c ∈ cmds1, wfCmd c) (hwf2 : ∀ c ∈ cmds2, wfCmd c)
    (hts1 : ∀ c ∈ cmds1, tsOK c) (hts2 : ∀ c ∈ cmds2, tsOK c)
    (hsan1 : ∀ c ∈ cmds1, sanOK salt c) (hsan2 : ∀ c ∈ cmds2, sanOK salt c)
    (hok1 : StreamOK cmds1) (hok2 : StreamOK cmds2) :
    filter_send_stream (encodeStream cmds1) salt
        = filter_send_stream (encodeStream cmds2) salt
      ∧ parse_send_stream (encodeStream cmds1) = .ok (cmds1.map parsedCmdOf)
      ∧ parse_send_stream (encodeStream cmds2) = .ok (cmds2.map parsedCmdOf)
      ∧ (cmds1.map parsedCmdOf).map eraseCrc = (cmds2.map parsedCmdOf).map eraseCrc := by
  have hmapf : cmds1.map (filteredCmdBytes salt) = cmds2.map (filteredCmdBytes salt) := by
    calc cmds1.map (filteredCmdBytes salt)
        = (cmds1.map eraseRawCrc).map (filteredCmdBytes salt) := by
          rw [List.map_map]
          exact List.map_congr_left (fun c hc => (filteredCmdBytes_erase salt c).symm)
      _ = (cmds2.map eraseRawCrc).map (filteredCmdBytes salt) := by rw [hrel]
      _ = cmds2.map (filteredCmdBytes salt) := by
          rw [List.map_map]
          exact (List.map_congr_left (fun c hc => (filteredCmdBytes_erase salt c).symm)).symm
  refine ⟨?_, ?_, ?_, ?_⟩
  · have h1 := filter_send_stream_encode cmds1 salt [] hwf1 hsan1 hok1
    have h2 := filter_send_stream_encode cmds2 salt [] hwf2 hsan2 hok2
    rw [List.append_nil] at h1 h2
    rw [h1, h2, hmapf]
  · have h := parse_send_stream_encode cmds1 [] hwf1 hts1 hok1
    rwa [List.append_nil] at h
  · have h := parse_send_stream_encode cmds2 [] hwf2 hts2 hok2
    rwa [List.append_nil] at h
  · calc (cmds1.map parsedCmdOf).map eraseCrc
        = (cmds1.map eraseRawCrc).map parsedCmdOf := by
          rw [List.map_map, List.map_map]
          exact List.map_congr_left (fun c hc => parsedCmdOf_erase c)
      _ = (cmds2.map eraseRawCrc).map parsedCmdOf := by rw [hrel]
      _ = (cmds2.map parsedCmdOf).map eraseCrc := by
          rw [List.map_map, List.map_map]
          exact (List.map_congr_left (fun c hc => parsedCmdOf_erase c)).symm

theorem C10_checksum_never_checked_witness :
    filter_send_stream (encodeStream [⟨21, 5, []⟩]) []
      = filter_send_stream (encodeStream [⟨21, 9, []⟩]) [] :=
  (C10_checksum_never_checked [⟨21, 5, []⟩] [⟨21, 9, []⟩] []
    (by decide) (by decide) (by decide) (by decide) (by decide)
    (by decide) (by decide) (by decide) (by decide)).1

end BtrfsSend
